import Mathlib

unseal Rat.sub Rat.add Rat.mul Rat.inv Rat.ofScientific

/-!
Verification development for the frame assembly and encoding-feed pipeline of
`puppeteer-screen-recorder` (`PageVideoStreamWriter` in `src/unnamed/part_000`
together with its caller `PuppeteerScreenRecorder`).

Frames carry an opaque blob (modelled as a `Nat` identifier) and a timestamp in
seconds (a JavaScript number, modelled as `ℚ`).  The writer keeps an
insertion-sorted bounded buffer of frames, computes per-frame display
durations from consecutive timestamps, and writes each blob to the ffmpeg
mediator stream a number of times proportional to its duration.
-/

namespace PageVideoStreamWriter

/-- Modelled from the spec: the `VIDEO_WRITE_STATUS` enum comes from the
`pageVideoStreamTypes` module, which is not among the provided sources; the
spec gives the pipeline status as `{ NOT_STARTED, IN_PROGRESS, COMPLETED }`. -/
inductive VideoWriteStatus where
  | NOT_STARTED
  | IN_PROGRESS
  | COMPLETED
  deriving DecidableEq

/-- A frame held by the ordered frame buffer: the value returned by
`_createPageScreenFrame` (part_000 lines 473-500), `{ timestamp, blob }`.
The image transform itself is an external collaborator, so the blob is an
opaque identifier. -/
structure ProcessedFrame where
  blob : Nat
  timestamp : ℚ
  deriving DecidableEq

/-- A frame as returned by `_trimFrame` (part_000 lines 453-463): the input
frame together with its computed display `duration`. -/
structure TimedFrame where
  blob : Nat
  timestamp : ℚ
  duration : ℚ
  deriving DecidableEq

/-- The capacity bound `_screenLimit = 40` (part_000 line 204). -/
def screenLimit : Nat := 40

/-- Junk frame used as the default of out-of-range `getD` accesses; every
access made by the model is in range (claim C10 is exactly about this). -/
def junkFrame : ProcessedFrame := ⟨0, 0⟩

/-- The descending scan of `_findSlot` (part_000 lines 434-451).
`findSlotAux frames t (i + 1)` models the loop with counter `i`: it breaks
with `i + 1` as soon as `t > frames[i].timestamp` and otherwise keeps
descending; falling off the loop (`i = -1`) gives `0`, which also covers the
early return for the empty buffer. -/
def findSlotAux (frames : List ProcessedFrame) (timestamp : ℚ) : Nat → Nat
  | 0 => 0
  | i + 1 =>
    if timestamp > (frames.getD i junkFrame).timestamp then i + 1
    else findSlotAux frames timestamp i

/-- `_findSlot` (part_000 lines 434-451): scan from the tail of the buffer for
the first index whose timestamp is strictly below the new timestamp; the slot
is the position right after it. -/
def findSlot (frames : List ProcessedFrame) (timestamp : ℚ) : Nat :=
  findSlotAux frames timestamp frames.length

/-- `_trimFrame` (part_000 lines 453-463): each frame's duration is the next
frame's timestamp — or `chunckEndTime` for the last frame — minus its own
timestamp.  The source maps over the list with an index; this recursion
computes the same per-frame values.  No clamping is applied to the
difference. -/
def trimFrame : List ProcessedFrame → ℚ → List TimedFrame
  | [], _ => []
  | [f], chunckEndTime => [⟨f.blob, f.timestamp, chunckEndTime - f.timestamp⟩]
  | f :: g :: rest, chunckEndTime =>
    ⟨f.blob, f.timestamp, g.timestamp - f.timestamp⟩ :: trimFrame (g :: rest) chunckEndTime

/-- The state of one `PageVideoStreamWriter` instance.  `sink` is the
sequence of blobs written to `_videoMediatorStream`, `endCalls` counts the
calls to `_videoMediatorStream.end()`, and `writerResult` is the value the
memoized `_writerPromise` resolves to (fixed at construction time by the
ffmpeg pipeline).  `flushed` is a specification-level trace of the timed
frames handed to `write`, in order; it influences no operation. -/
structure WriterState where
  screenCastFrames : List ProcessedFrame
  sink : List Nat
  flushed : List TimedFrame
  status : VideoWriteStatus
  endCalls : Nat
  fps : ℚ
  writerResult : Bool
  deriving DecidableEq

/-- The loop `for (let i = 0; i < n; i++) stream.write(data)` inside `write`
(part_000 lines 274-276), as the list of blobs it writes. -/
def writeLoop (data : Nat) : Nat → List Nat
  | 0 => []
  | n + 1 => data :: writeLoop data n

/-- `write` (part_000 lines 266-277): sets the status to `IN_PROGRESS` and
writes `data` to the mediator stream
`Math.max(Math.floor(durationSeconds * fps), 1)` times. -/
def write (s : WriterState) (data : Nat) (durationSeconds : ℚ) : WriterState :=
  let numberOfFps : ℤ := max ⌊durationSeconds * s.fps⌋ 1
  { s with
    status := VideoWriteStatus.IN_PROGRESS
    sink := s.sink ++ writeLoop data numberOfFps.toNat }

/-- `_processFrameBeforeWrite` (part_000 lines 465-471): resolve durations via
`_trimFrame`, then `write` each resulting frame in order.  The processed
batch is also recorded in the `flushed` trace. -/
def processFrameBeforeWrite (s : WriterState) (frames : List ProcessedFrame)
    (chunckEndTime : ℚ) : WriterState :=
  let processedFrames := trimFrame frames chunckEndTime
  let s1 := { s with flushed := s.flushed ++ processedFrames }
  processedFrames.foldl (fun st tf => write st tf.blob tf.duration) s1

/-- `insert` (part_000 lines 244-264), after the external frame transform has
produced a `ProcessedFrame`.  When the buffer is at `_screenLimit`, the first
`Math.floor(_screenLimit / 2)` frames are spliced out and processed with the
timestamp of the new buffer head (`this._screenCastFrames[0].timestamp`) as
batch end time; then the frame is placed at `_findSlot`'s slot, by `push`
when the slot is the length and by `splice` otherwise. -/
def insert (s : WriterState) (frame : ProcessedFrame) : WriterState :=
  let s1 :=
    if s.screenCastFrames.length = screenLimit then
      let numberOfFramesToSplice := screenLimit / 2
      let framesToProcess := s.screenCastFrames.take numberOfFramesToSplice
      let remaining := s.screenCastFrames.drop numberOfFramesToSplice
      processFrameBeforeWrite { s with screenCastFrames := remaining }
        framesToProcess (remaining.getD 0 junkFrame).timestamp
    else s
  let insertionIndex := findSlot s1.screenCastFrames frame.timestamp
  if insertionIndex = s1.screenCastFrames.length then
    { s1 with screenCastFrames := s1.screenCastFrames ++ [frame] }
  else
    { s1 with screenCastFrames :=
        s1.screenCastFrames.take insertionIndex
          ++ frame :: s1.screenCastFrames.drop insertionIndex }

/-- `_drainFrames` (part_000 lines 502-505): process every buffered frame with
the stop time as batch end time, then clear the buffer. -/
def drainFrames (s : WriterState) (stoppedTime : ℚ) : WriterState :=
  let s1 := processFrameBeforeWrite s s.screenCastFrames stoppedTime
  { s1 with screenCastFrames := [] }

/-- `stop` (part_000 lines 279-289): once `COMPLETED`, return the memoized
`_writerPromise` without side effects; otherwise drain the remaining frames,
end the mediator stream, move to `COMPLETED` and return the promise. -/
def stop (s : WriterState) (stoppedTime : ℚ) : WriterState × Bool :=
  if s.status = VideoWriteStatus.COMPLETED then (s, s.writerResult)
  else
    let s1 := drainFrames s stoppedTime
    let s2 := { s1 with
      endCalls := s1.endCalls + 1
      status := VideoWriteStatus.COMPLETED }
    (s2, s2.writerResult)

/-- A writer freshly constructed with the given `fps` option and eventual
encoder result. -/
def initialState (fps : ℚ) (writerResult : Bool) : WriterState :=
  { screenCastFrames := []
    sink := []
    flushed := []
    status := VideoWriteStatus.NOT_STARTED
    endCalls := 0
    fps := fps
    writerResult := writerResult }

/-- A sequence of `insert` calls, in arrival order. -/
def runInserts (s : WriterState) (frames : List ProcessedFrame) : WriterState :=
  frames.foldl insert s

/-- The error-message fragment tested by `_handleWriteStreamError`
(part_000 line 425). -/
def eofMarker : List Char := String.toList "pipe:0: End of file"

/-- The observable effects of one `_handleWriteStreamError` call. -/
structure ErrorHandling where
  videoStreamWriterErrorRaised : Bool
  consoleErrorLogged : Bool
  deriving DecidableEq

/-- `_handleWriteStreamError` (part_000 lines 420-432): the
`videoStreamWriterError` event is emitted first, unconditionally; the early
return afterwards only suppresses the `console.error` log when the status is
no longer `IN_PROGRESS` and the message contains `pipe:0: End of file`. -/
def handleWriteStreamError (status : VideoWriteStatus) (errorMessage : List Char) :
    ErrorHandling :=
  let afterEmit : ErrorHandling := ⟨true, false⟩
  if status ≠ VideoWriteStatus.IN_PROGRESS ∧ eofMarker <:+: errorMessage then
    afterEmit
  else
    { afterEmit with consoleErrorLogged := true }

/-- Timestamp order on frames, the order the buffer is sorted in. -/
def tsLE (a b : ProcessedFrame) : Prop := a.timestamp ≤ b.timestamp

instance : DecidableRel tsLE := fun a b =>
  inferInstanceAs (Decidable (a.timestamp ≤ b.timestamp))

instance : IsRefl ProcessedFrame tsLE := ⟨fun a => le_refl a.timestamp⟩

/-- Junk timed frame used as the default of `getD` accesses in statements. -/
def junkTimed : TimedFrame := ⟨0, 0, 0⟩

/-- A writer whose buffer holds exactly `_screenLimit` frames, with
timestamps `0, 1, ..., 39`: the state right before a capacity drain. -/
def fortyState : WriterState :=
  { initialState 25 true with
    screenCastFrames := (List.range screenLimit).map (fun i => ⟨i, (i : ℕ)⟩) }

/-- An arrival order that defeats the global ordering guarantee: forty frames
with timestamps `100..139` fill the buffer, then one very late frame with
timestamp `1` arrives after the half-drain has already flushed timestamps
`100..119`. -/
def ceFrames : List ProcessedFrame :=
  (List.range screenLimit).map (fun i => ⟨i, (100 + i : ℕ)⟩) ++ [⟨40, 1⟩]

example : findSlot [⟨0, 3⟩, ⟨1, 5⟩] 4 = 1 := by decide
example : findSlot [⟨0, 5⟩] 5 = 0 := by decide
example : trimFrame [⟨0, 5⟩, ⟨1, 7⟩, ⟨2, 10⟩] 12 =
    [⟨0, 5, 2⟩, ⟨1, 7, 3⟩, ⟨2, 10, 2⟩] := by decide

theorem writeLoop_eq_replicate (data : Nat) : ∀ n, writeLoop data n = List.replicate n data
  | 0 => rfl
  | n + 1 => by simp [writeLoop, writeLoop_eq_replicate data n, List.replicate_succ]

theorem write_screenCastFrames (s : WriterState) (b : Nat) (d : ℚ) :
    (write s b d).screenCastFrames = s.screenCastFrames := rfl

theorem write_flushed (s : WriterState) (b : Nat) (d : ℚ) :
    (write s b d).flushed = s.flushed := rfl

theorem write_endCalls (s : WriterState) (b : Nat) (d : ℚ) :
    (write s b d).endCalls = s.endCalls := rfl

theorem write_fps (s : WriterState) (b : Nat) (d : ℚ) : (write s b d).fps = s.fps := rfl

theorem write_writerResult (s : WriterState) (b : Nat) (d : ℚ) :
    (write s b d).writerResult = s.writerResult := rfl

theorem foldlWrite_screenCastFrames (L : List TimedFrame) :
    ∀ s : WriterState,
      (L.foldl (fun st tf => write st tf.blob tf.duration) s).screenCastFrames
        = s.screenCastFrames := by
  induction L with
  | nil => intro s; rfl
  | cons tf L ih => intro s; simpa [List.foldl_cons, write_screenCastFrames] using ih _

theorem foldlWrite_flushed (L : List TimedFrame) :
    ∀ s : WriterState,
      (L.foldl (fun st tf => write st tf.blob tf.duration) s).flushed = s.flushed := by
  induction L with
  | nil => intro s; rfl
  | cons tf L ih => intro s; simpa [List.foldl_cons, write_flushed] using ih _

theorem foldlWrite_endCalls (L : List TimedFrame) :
    ∀ s : WriterState,
      (L.foldl (fun st tf => write st tf.blob tf.duration) s).endCalls = s.endCalls := by
  induction L with
  | nil => intro s; rfl
  | cons tf L ih => intro s; simpa [List.foldl_cons, write_endCalls] using ih _

theorem foldlWrite_fps (L : List TimedFrame) :
    ∀ s : WriterState,
      (L.foldl (fun st tf => write st tf.blob tf.duration) s).fps = s.fps := by
  induction L with
  | nil => intro s; rfl
  | cons tf L ih => intro s; simpa [List.foldl_cons, write_fps] using ih _

theorem foldlWrite_writerResult (L : List TimedFrame) :
    ∀ s : WriterState,
      (L.foldl (fun st tf => write st tf.blob tf.duration) s).writerResult
        = s.writerResult := by
  induction L with
  | nil => intro s; rfl
  | cons tf L ih => intro s; simpa [List.foldl_cons, write_writerResult] using ih _

theorem processFrameBeforeWrite_screenCastFrames (s : WriterState)
    (fr : List ProcessedFrame) (e : ℚ) :
    (processFrameBeforeWrite s fr e).screenCastFrames = s.screenCastFrames := by
  unfold processFrameBeforeWrite
  exact foldlWrite_screenCastFrames _ _

theorem processFrameBeforeWrite_flushed (s : WriterState)
    (fr : List ProcessedFrame) (e : ℚ) :
    (processFrameBeforeWrite s fr e).flushed = s.flushed ++ trimFrame fr e := by
  unfold processFrameBeforeWrite
  rw [foldlWrite_flushed]

theorem processFrameBeforeWrite_endCalls (s : WriterState)
    (fr : List ProcessedFrame) (e : ℚ) :
    (processFrameBeforeWrite s fr e).endCalls = s.endCalls := by
  unfold processFrameBeforeWrite
  exact foldlWrite_endCalls _ _

theorem processFrameBeforeWrite_fps (s : WriterState)
    (fr : List ProcessedFrame) (e : ℚ) :
    (processFrameBeforeWrite s fr e).fps = s.fps := by
  unfold processFrameBeforeWrite
  exact foldlWrite_fps _ _

theorem processFrameBeforeWrite_writerResult (s : WriterState)
    (fr : List ProcessedFrame) (e : ℚ) :
    (processFrameBeforeWrite s fr e).writerResult = s.writerResult := by
  unfold processFrameBeforeWrite
  exact foldlWrite_writerResult _ _

theorem findSlotAux_le (l : List ProcessedFrame) (t : ℚ) : ∀ n, findSlotAux l t n ≤ n
  | 0 => le_refl 0
  | n + 1 => by
    unfold findSlotAux
    split
    · exact le_refl _
    · exact le_trans (findSlotAux_le l t n) (Nat.le_succ n)

theorem findSlotAux_ge (l : List ProcessedFrame) (t : ℚ) :
    ∀ n j, findSlotAux l t n ≤ j → j < n → t ≤ (l.getD j junkFrame).timestamp := by
  intro n
  induction n with
  | zero => intro j _ hj; exact absurd hj (Nat.not_lt_zero j)
  | succ n ih =>
    intro j h1 h2
    unfold findSlotAux at h1
    by_cases hb : t > (l.getD n junkFrame).timestamp
    · rw [if_pos hb] at h1
      exact absurd h2 (Nat.not_lt.2 h1)
    · rw [if_neg hb] at h1
      rcases Nat.lt_succ_iff_lt_or_eq.1 h2 with hlt | rfl
      · exact ih j h1 hlt
      · exact le_of_not_lt hb

theorem findSlotAux_lt (l : List ProcessedFrame) (t : ℚ) :
    ∀ n, findSlotAux l t n ≠ 0 →
      (l.getD (findSlotAux l t n - 1) junkFrame).timestamp < t := by
  intro n
  induction n with
  | zero => intro h; exact absurd rfl h
  | succ n ih =>
    intro h
    unfold findSlotAux at h ⊢
    by_cases hb : t > (l.getD n junkFrame).timestamp
    · rw [if_pos hb]
      simpa using hb
    · rw [if_neg hb] at h ⊢
      exact ih h

theorem findSlot_le_length (l : List ProcessedFrame) (t : ℚ) : findSlot l t ≤ l.length :=
  findSlotAux_le l t l.length

theorem le_timestamp_of_findSlot_le (l : List ProcessedFrame) (t : ℚ) (j : Nat)
    (h1 : findSlot l t ≤ j) (h2 : j < l.length) : t ≤ (l.getD j junkFrame).timestamp :=
  findSlotAux_ge l t l.length j h1 h2

theorem getD_of_lt (l : List ProcessedFrame) (j : Nat) (h : j < l.length) :
    l.getD j junkFrame = l[j] := by
  simp [List.getD_eq_getElem?_getD, List.getElem?_eq_getElem h]

theorem timestamp_lt_of_lt_findSlot (l : List ProcessedFrame) (t : ℚ) (j : Nat)
    (hs : List.Sorted tsLE l) (h : j < findSlot l t) :
    (l.getD j junkFrame).timestamp < t := by
  have hne : findSlot l t ≠ 0 := by omega
  have hk : findSlot l t - 1 < l.length := by
    have := findSlot_le_length l t
    omega
  have hlast : (l.getD (findSlot l t - 1) junkFrame).timestamp < t :=
    findSlotAux_lt l t l.length hne
  have hj : j < l.length := by
    have := findSlot_le_length l t
    omega
  rcases Nat.lt_or_ge j (findSlot l t - 1) with hlt | hge
  · have hrel : tsLE (l.get ⟨j, hj⟩) (l.get ⟨findSlot l t - 1, hk⟩) :=
      hs.rel_get_of_le (le_of_lt hlt)
    rw [getD_of_lt l j hj]
    rw [getD_of_lt l _ hk] at hlast
    exact lt_of_le_of_lt hrel hlast
  · have : j = findSlot l t - 1 := by omega
    rw [this]
    exact hlast

theorem sorted_insertAt (l : List ProcessedFrame) (f : ProcessedFrame)
    (hs : List.Sorted tsLE l) :
    List.Sorted tsLE
      (l.take (findSlot l f.timestamp) ++ f :: l.drop (findSlot l f.timestamp)) := by
  rw [List.Sorted, List.pairwise_append]
  refine ⟨hs.sublist (List.take_sublist _ _), ?_, ?_⟩
  · rw [List.pairwise_cons]
    refine ⟨?_, hs.sublist (List.drop_sublist _ _)⟩
    intro b hb
    rcases List.mem_iff_getElem.1 hb with ⟨i, hi, rfl⟩
    rw [List.getElem_drop]
    have hlen : findSlot l f.timestamp + i < l.length := by
      have := hi
      simp [List.length_drop] at this
      omega
    have := le_timestamp_of_findSlot_le l f.timestamp (findSlot l f.timestamp + i)
      (Nat.le_add_right _ _) hlen
    rw [getD_of_lt l _ hlen] at this
    exact this
  · intro a ha b hb
    rcases List.mem_iff_getElem.1 ha with ⟨i, hi, rfl⟩
    have hslot : i < findSlot l f.timestamp := by
      have := hi
      simp [List.length_take] at this
      omega
    have hil : i < l.length := lt_of_lt_of_le hslot (findSlot_le_length _ _)
    have hlt : ((l.take (findSlot l f.timestamp))[i]).timestamp < f.timestamp := by
      rw [List.getElem_take]
      have := timestamp_lt_of_lt_findSlot l f.timestamp i hs hslot
      rwa [getD_of_lt l i hil] at this
    rcases List.mem_cons.1 hb with rfl | hb
    · exact le_of_lt hlt
    · rcases List.mem_iff_getElem.1 hb with ⟨k, hk, rfl⟩
      rw [List.getElem_drop]
      have hkl : findSlot l f.timestamp + k < l.length := by
        have := hk
        simp [List.length_drop] at this
        omega
      have hge := le_timestamp_of_findSlot_le l f.timestamp (findSlot l f.timestamp + k)
        (Nat.le_add_right _ _) hkl
      rw [getD_of_lt l _ hkl] at hge
      exact le_trans (le_of_lt hlt) hge

theorem insertAt_perm (l : List ProcessedFrame) (f : ProcessedFrame) (n : Nat) :
    List.Perm (l.take n ++ f :: l.drop n) (f :: l) := by
  have h1 : List.Perm (l.take n ++ f :: l.drop n) (f :: (l.take n ++ l.drop n)) :=
    List.perm_middle
  rwa [List.take_append_drop] at h1

theorem insertAt_length (l : List ProcessedFrame) (f : ProcessedFrame) (n : Nat) :
    (l.take n ++ f :: l.drop n).length = l.length + 1 := by
  simpa using (insertAt_perm l f n).length_eq

theorem ite_insert_list (l : List ProcessedFrame) (f : ProcessedFrame) :
    (if findSlot l f.timestamp = l.length then l ++ [f]
     else l.take (findSlot l f.timestamp) ++ f :: l.drop (findSlot l f.timestamp))
    = l.take (findSlot l f.timestamp) ++ f :: l.drop (findSlot l f.timestamp) := by
  by_cases hsl : findSlot l f.timestamp = l.length
  · rw [if_pos hsl, hsl, List.take_length, List.drop_length]
  · rw [if_neg hsl]

theorem insert_of_length_ne (s : WriterState) (f : ProcessedFrame)
    (h : s.screenCastFrames.length ≠ screenLimit) :
    insert s f = { s with screenCastFrames :=
      s.screenCastFrames.take (findSlot s.screenCastFrames f.timestamp)
        ++ f :: s.screenCastFrames.drop (findSlot s.screenCastFrames f.timestamp) } := by
  unfold insert
  rw [if_neg h]
  by_cases hsl : findSlot s.screenCastFrames f.timestamp = s.screenCastFrames.length
  · rw [if_pos hsl, hsl, List.take_length, List.drop_length]
  · rw [if_neg hsl]

theorem insert_of_length_eq (s : WriterState) (f : ProcessedFrame)
    (h : s.screenCastFrames.length = screenLimit) :
    insert s f =
      { processFrameBeforeWrite
          { s with screenCastFrames := s.screenCastFrames.drop (screenLimit / 2) }
          (s.screenCastFrames.take (screenLimit / 2))
          ((s.screenCastFrames.drop (screenLimit / 2)).getD 0 junkFrame).timestamp
        with screenCastFrames :=
          (s.screenCastFrames.drop (screenLimit / 2)).take
              (findSlot (s.screenCastFrames.drop (screenLimit / 2)) f.timestamp)
            ++ f :: (s.screenCastFrames.drop (screenLimit / 2)).drop
              (findSlot (s.screenCastFrames.drop (screenLimit / 2)) f.timestamp) } := by
  have hfr : (processFrameBeforeWrite
      { s with screenCastFrames := s.screenCastFrames.drop (screenLimit / 2) }
      (s.screenCastFrames.take (screenLimit / 2))
      ((s.screenCastFrames.drop (screenLimit / 2)).getD 0 junkFrame).timestamp).screenCastFrames
      = s.screenCastFrames.drop (screenLimit / 2) :=
    processFrameBeforeWrite_screenCastFrames _ _ _
  simp only [insert]
  rw [if_pos h, hfr]
  by_cases hsl : findSlot (s.screenCastFrames.drop (screenLimit / 2)) f.timestamp
      = (s.screenCastFrames.drop (screenLimit / 2)).length
  · rw [if_pos hsl, hsl, List.take_length, List.drop_length]
  · rw [if_neg hsl]

theorem insert_flushed_of_ne (s : WriterState) (f : ProcessedFrame)
    (h : s.screenCastFrames.length ≠ screenLimit) :
    (insert s f).flushed = s.flushed := by
  rw [insert_of_length_ne s f h]

theorem insert_flushed_of_eq (s : WriterState) (f : ProcessedFrame)
    (h : s.screenCastFrames.length = screenLimit) :
    (insert s f).flushed = s.flushed ++
      trimFrame (s.screenCastFrames.take (screenLimit / 2))
        ((s.screenCastFrames.drop (screenLimit / 2)).getD 0 junkFrame).timestamp := by
  rw [insert_of_length_eq s f h]
  exact processFrameBeforeWrite_flushed _ _ _

theorem insert_endCalls (s : WriterState) (f : ProcessedFrame) :
    (insert s f).endCalls = s.endCalls := by
  by_cases h : s.screenCastFrames.length = screenLimit
  · rw [insert_of_length_eq s f h]
    exact processFrameBeforeWrite_endCalls _ _ _
  · rw [insert_of_length_ne s f h]

theorem insert_fps (s : WriterState) (f : ProcessedFrame) :
    (insert s f).fps = s.fps := by
  by_cases h : s.screenCastFrames.length = screenLimit
  · rw [insert_of_length_eq s f h]
    exact processFrameBeforeWrite_fps _ _ _
  · rw [insert_of_length_ne s f h]

theorem insert_writerResult (s : WriterState) (f : ProcessedFrame) :
    (insert s f).writerResult = s.writerResult := by
  by_cases h : s.screenCastFrames.length = screenLimit
  · rw [insert_of_length_eq s f h]
    exact processFrameBeforeWrite_writerResult _ _ _
  · rw [insert_of_length_ne s f h]

theorem insert_sorted (s : WriterState) (f : ProcessedFrame)
    (hs : List.Sorted tsLE s.screenCastFrames) :
    List.Sorted tsLE (insert s f).screenCastFrames := by
  by_cases h : s.screenCastFrames.length = screenLimit
  · rw [insert_of_length_eq s f h]
    exact sorted_insertAt _ f (hs.sublist (List.drop_sublist _ _))
  · rw [insert_of_length_ne s f h]
    exact sorted_insertAt _ f hs

theorem insert_frames_of_ne (s : WriterState) (f : ProcessedFrame)
    (h : s.screenCastFrames.length ≠ screenLimit) :
    (insert s f).screenCastFrames =
      s.screenCastFrames.take (findSlot s.screenCastFrames f.timestamp)
        ++ f :: s.screenCastFrames.drop (findSlot s.screenCastFrames f.timestamp) := by
  rw [insert_of_length_ne s f h]

theorem insert_length_of_ne (s : WriterState) (f : ProcessedFrame)
    (h : s.screenCastFrames.length ≠ screenLimit) :
    (insert s f).screenCastFrames.length = s.screenCastFrames.length + 1 := by
  rw [insert_frames_of_ne s f h]
  exact insertAt_length _ f _

theorem insert_length_of_eq (s : WriterState) (f : ProcessedFrame)
    (h : s.screenCastFrames.length = screenLimit) :
    (insert s f).screenCastFrames.length = screenLimit / 2 + 1 := by
  rw [insert_of_length_eq s f h]
  have := insertAt_length (s.screenCastFrames.drop (screenLimit / 2)) f
    (findSlot (s.screenCastFrames.drop (screenLimit / 2)) f.timestamp)
  simpa [List.length_drop, h] using this

theorem insert_length_le (s : WriterState) (f : ProcessedFrame)
    (h : s.screenCastFrames.length ≤ screenLimit) :
    (insert s f).screenCastFrames.length ≤ screenLimit := by
  by_cases heq : s.screenCastFrames.length = screenLimit
  · rw [insert_length_of_eq s f heq]
    norm_num [screenLimit]
  · rw [insert_length_of_ne s f heq]
    omega

theorem runInserts_cons (s : WriterState) (f : ProcessedFrame) (fs : List ProcessedFrame) :
    runInserts s (f :: fs) = runInserts (insert s f) fs := rfl

theorem runInserts_sorted (fs : List ProcessedFrame) :
    ∀ s : WriterState, List.Sorted tsLE s.screenCastFrames →
      List.Sorted tsLE (runInserts s fs).screenCastFrames := by
  induction fs with
  | nil => intro s hs; exact hs
  | cons f fs ih => intro s hs; exact ih _ (insert_sorted s f hs)

theorem runInserts_no_drain (fs : List ProcessedFrame) :
    ∀ s : WriterState, List.Sorted tsLE s.screenCastFrames →
      s.screenCastFrames.length + fs.length ≤ screenLimit →
      List.Perm (runInserts s fs).screenCastFrames (s.screenCastFrames ++ fs) ∧
      (runInserts s fs).screenCastFrames.length
        = s.screenCastFrames.length + fs.length ∧
      (runInserts s fs).flushed = s.flushed ∧
      (runInserts s fs).status = s.status ∧
      (runInserts s fs).endCalls = s.endCalls ∧
      (runInserts s fs).fps = s.fps ∧
      (runInserts s fs).writerResult = s.writerResult := by
  induction fs with
  | nil =>
    intro s _ _
    refine ⟨?_, by simp [runInserts], rfl, rfl, rfl, rfl, rfl⟩
    simp [runInserts]
  | cons f fs ih =>
    intro s hs hlen
    have hne : s.screenCastFrames.length ≠ screenLimit := by
      simp only [List.length_cons] at hlen
      omega
    have hlen1 : (insert s f).screenCastFrames.length + fs.length ≤ screenLimit := by
      rw [insert_length_of_ne s f hne]
      simp only [List.length_cons] at hlen
      omega
    have hsorted1 := insert_sorted s f hs
    obtain ⟨hperm, hl, hfl, hst, hec, hfps, hwr⟩ := ih (insert s f) hsorted1 hlen1
    rw [runInserts_cons]
    refine ⟨?_, ?_, ?_, ?_, ?_, ?_, ?_⟩
    · have h1 : List.Perm (insert s f).screenCastFrames (f :: s.screenCastFrames) := by
        rw [insert_frames_of_ne s f hne]
        exact insertAt_perm _ f _
      have h2 : List.Perm ((insert s f).screenCastFrames ++ fs)
          ((f :: s.screenCastFrames) ++ fs) := h1.append_right fs
      have h3 : List.Perm (s.screenCastFrames ++ f :: fs)
          (f :: (s.screenCastFrames ++ fs)) := List.perm_middle
      exact (hperm.trans h2).trans h3.symm
    · rw [hl, insert_length_of_ne s f hne]
      simp only [List.length_cons]
      omega
    · rw [hfl, insert_flushed_of_ne s f hne]
    · rw [hst, insert_of_length_ne s f hne]
    · rw [hec, insert_endCalls]
    · rw [hfps, insert_fps]
    · rw [hwr, insert_writerResult]

theorem trimFrame_length (fs : List ProcessedFrame) (e : ℚ) :
    (trimFrame fs e).length = fs.length := by
  induction fs with
  | nil => rfl
  | cons f rest ih =>
    cases rest with
    | nil => rfl
    | cons g r =>
      simp only [trimFrame, List.length_cons] at ih ⊢
      omega

theorem trimFrame_map_timestamp (fs : List ProcessedFrame) (e : ℚ) :
    (trimFrame fs e).map TimedFrame.timestamp = fs.map ProcessedFrame.timestamp := by
  induction fs with
  | nil => rfl
  | cons f rest ih =>
    cases rest with
    | nil => rfl
    | cons g r =>
      simp only [trimFrame, List.map_cons] at ih ⊢
      rw [ih]

theorem trimFrame_getD_duration (fs : List ProcessedFrame) (e : ℚ) :
    ∀ i, i < fs.length →
      ((trimFrame fs e).getD i junkTimed).duration =
        (if i + 1 < fs.length then (fs.getD (i + 1) junkFrame).timestamp else e)
          - (fs.getD i junkFrame).timestamp := by
  induction fs with
  | nil => intro i hi; simp at hi
  | cons f rest ih =>
    cases rest with
    | nil =>
      intro i hi
      cases i with
      | zero => simp [trimFrame]
      | succ i => simp at hi
    | cons g r =>
      intro i hi
      cases i with
      | zero => simp [trimFrame]
      | succ i =>
        have hi' : i < (g :: r).length := by
          simp only [List.length_cons] at hi ⊢
          omega
        have h2 := ih i hi'
        have hiff : (i + 1 + 1 < (g :: r).length + 1) ↔ (i + 1 < (g :: r).length) := by
          omega
        simp only [trimFrame, List.getD_cons_succ, List.length_cons] at h2 ⊢
        simp only [List.length_cons] at hiff
        rw [if_congr hiff rfl rfl]
        exact h2

theorem drainFrames_endCalls (s : WriterState) (t : ℚ) :
    (drainFrames s t).endCalls = s.endCalls := by
  unfold drainFrames
  exact processFrameBeforeWrite_endCalls _ _ _

theorem drainFrames_flushed (s : WriterState) (t : ℚ) :
    (drainFrames s t).flushed = s.flushed ++ trimFrame s.screenCastFrames t := by
  unfold drainFrames
  exact processFrameBeforeWrite_flushed _ _ _

theorem stop_of_completed (s : WriterState) (t : ℚ)
    (hc : s.status = VideoWriteStatus.COMPLETED) : stop s t = (s, s.writerResult) := by
  unfold stop
  rw [if_pos hc]

theorem stop_status (s : WriterState) (t : ℚ) :
    (stop s t).1.status = VideoWriteStatus.COMPLETED := by
  unfold stop
  by_cases hc : s.status = VideoWriteStatus.COMPLETED
  · rw [if_pos hc]
    exact hc
  · rw [if_neg hc]

theorem stop_snd (s : WriterState) (t : ℚ) :
    (stop s t).2 = (stop s t).1.writerResult := by
  unfold stop
  by_cases hc : s.status = VideoWriteStatus.COMPLETED
  · rw [if_pos hc]
  · rw [if_neg hc]

theorem stop_endCalls_of_ne (s : WriterState) (t : ℚ)
    (h : s.status ≠ VideoWriteStatus.COMPLETED) :
    (stop s t).1.endCalls = s.endCalls + 1 := by
  unfold stop
  rw [if_neg h]
  exact congrArg (· + 1) (drainFrames_endCalls s t)

theorem stop_flushed_of_ne (s : WriterState) (t : ℚ)
    (h : s.status ≠ VideoWriteStatus.COMPLETED) :
    (stop s t).1.flushed = s.flushed ++ trimFrame s.screenCastFrames t := by
  unfold stop
  rw [if_neg h]
  exact drainFrames_flushed s t

/-- C2 (counterexample): with the default `fps = 25` and
`durationSeconds = 7/100`, one `write` call emits the blob once
(`Math.floor(7/100 * 25) = 1`), while the claimed `max(1, round(...))` count
is `2` (`round(7/4) = 2`), so the claim's repetition count is wrong. -/
theorem C2_counterexample :
    (write (initialState 25 true) 9 (7 / 100)).sink = [9] ∧
    Max.max 1 (round ((7 / 100 : ℚ) * 25)) = 2 := by decide

/-- C2 (amended): a single `write` call appends the blob to the sequential
sink exactly `max(Math.floor(durationSeconds * fps), 1)` times — `floor`, not
`round` — which is always at least one repetition, and moves the status to
`IN_PROGRESS`. -/
theorem C2_write_repeats_floor_times (s : WriterState) (data : Nat) (d : ℚ) :
    (write s data d).sink
      = s.sink ++ List.replicate (Max.max ⌊d * s.fps⌋ 1).toNat data ∧
    (write s data d).sink.length
      = s.sink.length + (Max.max ⌊d * s.fps⌋ 1).toNat ∧
    1 ≤ (Max.max ⌊d * s.fps⌋ 1).toNat ∧
    (write s data d).status = VideoWriteStatus.IN_PROGRESS := by
  have hloop : writeLoop data (Max.max ⌊d * s.fps⌋ 1).toNat
      = List.replicate (Max.max ⌊d * s.fps⌋ 1).toNat data :=
    writeLoop_eq_replicate data _
  have hone : (1 : ℤ) ≤ Max.max ⌊d * s.fps⌋ 1 := le_max_right _ _
  refine ⟨?_, ?_, by omega, rfl⟩
  · show s.sink ++ writeLoop data (Max.max ⌊d * s.fps⌋ 1).toNat = _
    rw [hloop]
  · show (s.sink ++ writeLoop data (Max.max ⌊d * s.fps⌋ 1).toNat).length = _
    rw [hloop]
    simp

/-- C3: for every non-empty frame list and batch end time, `_trimFrame`
returns one timed frame per input frame, with `duration[i] =
timestamp[i+1] - timestamp[i]` for all but the last frame and
`duration[last] = batchEndTime - timestamp[last]`; in particular timestamps
`[5, 7, 10]` with batch end time `12` yield durations `[2, 3, 2]`. -/
theorem C3_trimFrame_durations (fs : List ProcessedFrame) (e : ℚ) (h : fs ≠ []) :
    (trimFrame fs e).length = fs.length ∧
    (∀ i, i + 1 < fs.length →
      ((trimFrame fs e).getD i junkTimed).duration
        = (fs.getD (i + 1) junkFrame).timestamp - (fs.getD i junkFrame).timestamp) ∧
    ((trimFrame fs e).getD (fs.length - 1) junkTimed).duration
      = e - (fs.getD (fs.length - 1) junkFrame).timestamp ∧
    (trimFrame [⟨0, 5⟩, ⟨1, 7⟩, ⟨2, 10⟩] 12).map TimedFrame.duration = [2, 3, 2] := by
  have hpos : 0 < fs.length := List.length_pos.2 h
  refine ⟨trimFrame_length fs e, ?_, ?_, by decide⟩
  · intro i hi
    have hd := trimFrame_getD_duration fs e i (by omega)
    rw [if_pos hi] at hd
    exact hd
  · have hd := trimFrame_getD_duration fs e (fs.length - 1) (by omega)
    rw [if_neg (by omega)] at hd
    exact hd

theorem C3_witness :
    ([⟨0, 5⟩, ⟨1, 7⟩, ⟨2, 10⟩] : List ProcessedFrame) ≠ [] ∧
    (trimFrame [⟨0, 5⟩, ⟨1, 7⟩, ⟨2, 10⟩] 12).length = 3 := by
  refine ⟨by decide, ?_⟩
  have hlen := (C3_trimFrame_durations [⟨0, 5⟩, ⟨1, 7⟩, ⟨2, 10⟩] 12 (by decide)).1
  simpa using hlen

/-- C4 (counterexample): `_trimFrame` performs no clamping: on a regressed
input — a single frame with timestamp `5` and batch end time `3` — it
produces the negative duration `-2`, contradicting the claim that every
produced duration is non-negative. -/
theorem C4_counterexample :
    ((trimFrame [⟨0, 5⟩] 3).getD 0 junkTimed).duration = -2 ∧
    ¬ (0 ≤ ((trimFrame [⟨0, 5⟩] 3).getD 0 junkTimed).duration) := by decide

/-- C4 (amended): on every input — including regressing timestamps —
`_trimFrame` is total (never raises) and returns one timed frame per input
frame whose duration is the plain difference `end - timestamp`, with no
clamping, so durations can be negative; the non-negativity/clamping part of
the claim does not hold of the code. -/
theorem C4_trimFrame_total_unclamped (fs : List ProcessedFrame) (e : ℚ) (i : Nat)
    (hi : i < fs.length) :
    (trimFrame fs e).length = fs.length ∧
    ((trimFrame fs e).getD i junkTimed).duration =
      (if i + 1 < fs.length then (fs.getD (i + 1) junkFrame).timestamp else e)
        - (fs.getD i junkFrame).timestamp :=
  ⟨trimFrame_length fs e, trimFrame_getD_duration fs e i hi⟩

theorem C4_witness :
    (0 < ([⟨0, 5⟩] : List ProcessedFrame).length) ∧
    (trimFrame [⟨0, 5⟩] 3).length = 1 := by
  refine ⟨by decide, ?_⟩
  have hlen := (C4_trimFrame_total_unclamped [⟨0, 5⟩] 3 0 (by decide)).1
  simpa using hlen

/-- C6 (counterexample): with a buffer holding one frame at timestamp `5`,
`_findSlot` for another timestamp-`5` frame returns slot `0`, so the new
frame is inserted before — not after — the existing equal-timestamp entry. -/
theorem C6_counterexample :
    findSlot [⟨0, 5⟩] 5 = 0 ∧
    (insert { initialState 25 true with screenCastFrames := [⟨0, 5⟩] }
      ⟨1, 5⟩).screenCastFrames = [⟨1, 5⟩, ⟨0, 5⟩] ∧
    (insert { initialState 25 true with screenCastFrames := [⟨0, 5⟩] }
      ⟨1, 5⟩).screenCastFrames ≠ [⟨0, 5⟩, ⟨1, 5⟩] := by decide

/-- C6 (amended): because `_findSlot` scans from the tail and only stops on a
strictly smaller timestamp, a frame with an already-present timestamp `t` is
placed before every existing entry with timestamp `t`: in a sorted buffer,
every index holding timestamp `t` is at or after the returned slot. -/
theorem C6_equal_timestamp_goes_before (l : List ProcessedFrame) (t : ℚ)
    (hs : List.Sorted tsLE l) (j : Nat) (_hj : j < l.length)
    (hts : (l.getD j junkFrame).timestamp = t) :
    findSlot l t ≤ j := by
  by_contra hlt
  push_neg at hlt
  have hcontra := timestamp_lt_of_lt_findSlot l t j hs hlt
  rw [hts] at hcontra
  exact lt_irrefl t hcontra

theorem C6_witness :
    List.Sorted tsLE [(⟨0, 5⟩ : ProcessedFrame)] ∧
    findSlot [(⟨0, 5⟩ : ProcessedFrame)] 5 ≤ 0 :=
  ⟨by decide, C6_equal_timestamp_goes_before [⟨0, 5⟩] 5 (by decide) 0 (by decide) (by decide)⟩

/-- C9 (counterexample): `_handleWriteStreamError` emits the
`videoStreamWriterError` event before testing anything, so even for an
"end of file on input" message arriving after a normal stop (status
`COMPLETED`), the signal is raised — contradicting the claim that it is
suppressed there. -/
theorem C9_counterexample :
    (handleWriteStreamError VideoWriteStatus.COMPLETED
        eofMarker).videoStreamWriterErrorRaised = true ∧
    VideoWriteStatus.COMPLETED ≠ VideoWriteStatus.IN_PROGRESS ∧
    List.IsInfix eofMarker eofMarker := by
  refine ⟨by decide, by decide, List.infix_refl _⟩

/-- C9 (amended): the `videoStreamWriterError` signal is raised for every
sink error, including the benign end-of-file-after-stop case; what the early
return suppresses for that case is only the `console.error` log. -/
theorem C9_signal_always_console_suppressed (status : VideoWriteStatus)
    (msg : List Char) :
    (handleWriteStreamError status msg).videoStreamWriterErrorRaised = true ∧
    ((handleWriteStreamError status msg).consoleErrorLogged = false ↔
      (status ≠ VideoWriteStatus.IN_PROGRESS ∧ List.IsInfix eofMarker msg)) := by
  unfold handleWriteStreamError
  by_cases h : status ≠ VideoWriteStatus.IN_PROGRESS ∧ List.IsInfix eofMarker msg
  · rw [if_pos h]
    exact ⟨rfl, by simpa using h⟩
  · rw [if_neg h]
    refine ⟨rfl, ?_⟩
    simp only [h, iff_false]
    exact fun hfalse => Bool.true_eq_false ▸ hfalse ▸ rfl

/-- C7: when `insert` is called with the buffer exactly at `_screenLimit`,
one half-drain flushes exactly the `floor(_screenLimit / 2)` oldest frames,
duration-resolved against the timestamp of the new head of the remaining
buffer; the buffer afterwards is sorted and strictly below capacity
(`_screenLimit / 2 + 1` frames), and no `insert` can push a buffer that is
within capacity past `_screenLimit`. -/
theorem C7_capacity_half_drain (s : WriterState) (f : ProcessedFrame)
    (hlen : s.screenCastFrames.length = screenLimit)
    (hs : List.Sorted tsLE s.screenCastFrames) :
    (insert s f).screenCastFrames.length = screenLimit / 2 + 1 ∧
    (insert s f).screenCastFrames.length < screenLimit ∧
    List.Sorted tsLE (insert s f).screenCastFrames ∧
    (insert s f).flushed = s.flushed ++
      trimFrame (s.screenCastFrames.take (screenLimit / 2))
        ((s.screenCastFrames.drop (screenLimit / 2)).getD 0 junkFrame).timestamp ∧
    (∀ s' : WriterState, s'.screenCastFrames.length ≤ screenLimit →
      (insert s' f).screenCastFrames.length ≤ screenLimit) := by
  refine ⟨insert_length_of_eq s f hlen, ?_, insert_sorted s f hs,
    insert_flushed_of_eq s f hlen, fun s' h' => insert_length_le s' f h'⟩
  rw [insert_length_of_eq s f hlen]
  norm_num [screenLimit]

set_option maxRecDepth 10000 in
theorem C7_witness :
    fortyState.screenCastFrames.length = screenLimit ∧
    List.Sorted tsLE fortyState.screenCastFrames ∧
    (insert fortyState ⟨100, 100⟩).screenCastFrames.length = screenLimit / 2 + 1 :=
  ⟨by decide, by decide,
    (C7_capacity_half_drain fortyState ⟨100, 100⟩ (by decide) (by decide)).1⟩

/-- C10: when the capacity-triggered half-drain runs, the buffer that remains
after splicing out `floor(_screenLimit / 2)` of `_screenLimit` frames is
non-empty (`_screenLimit - _screenLimit / 2 ≥ 1` frames remain), so reading
the new head frame's timestamp for the batch end time returns an actual
element of the remaining buffer, never the out-of-range default. -/
theorem C10_half_drain_head_defined (s : WriterState)
    (h : s.screenCastFrames.length = screenLimit) :
    s.screenCastFrames.drop (screenLimit / 2) ≠ [] ∧
    ((s.screenCastFrames.drop (screenLimit / 2)).getD 0 junkFrame)
      ∈ s.screenCastFrames.drop (screenLimit / 2) ∧
    1 ≤ screenLimit - screenLimit / 2 := by
  have hl : (s.screenCastFrames.drop (screenLimit / 2)).length
      = screenLimit - screenLimit / 2 := by
    simp [List.length_drop, h]
  have hpos : 0 < (s.screenCastFrames.drop (screenLimit / 2)).length := by
    rw [hl]
    norm_num [screenLimit]
  refine ⟨List.length_pos.1 hpos, ?_, by norm_num [screenLimit]⟩
  rw [getD_of_lt _ 0 hpos]
  exact List.getElem_mem hpos

set_option maxRecDepth 10000 in
theorem C10_witness :
    fortyState.screenCastFrames.length = screenLimit ∧
    fortyState.screenCastFrames.drop (screenLimit / 2) ≠ [] :=
  ⟨by decide, (C10_half_drain_head_defined fortyState (by decide)).1⟩

/-- C8: `stop` is idempotent — once a first `stop` has completed, any later
`stop` returns the identical memoized state and result, the mediator stream
is ended exactly once across both calls, and the status is frozen at
`COMPLETED`. -/
theorem C8_stop_idempotent (s : WriterState) (t1 t2 : ℚ)
    (h : s.status ≠ VideoWriteStatus.COMPLETED) :
    stop (stop s t1).1 t2 = stop s t1 ∧
    (stop (stop s t1).1 t2).2 = (stop s t1).2 ∧
    (stop s t1).1.endCalls = s.endCalls + 1 ∧
    (stop (stop s t1).1 t2).1.endCalls = s.endCalls + 1 ∧
    (stop s t1).1.status = VideoWriteStatus.COMPLETED := by
  have hfix := stop_of_completed (stop s t1).1 t2 (stop_status s t1)
  have hmain : stop (stop s t1).1 t2 = stop s t1 := by
    rw [hfix]
    exact Prod.ext rfl (stop_snd s t1).symm
  refine ⟨hmain, by rw [hmain], stop_endCalls_of_ne s t1 h, ?_, stop_status s t1⟩
  rw [hmain]
  exact stop_endCalls_of_ne s t1 h

theorem C8_witness :
    (initialState 25 true).status ≠ VideoWriteStatus.COMPLETED ∧
    stop (stop (initialState 25 true) 7).1 3 = stop (initialState 25 true) 7 :=
  ⟨by decide, (C8_stop_idempotent (initialState 25 true) 7 3 (by decide)).1⟩

/-- C5: after every sequence of `insert` calls the buffer is sorted by
timestamp; and when frames with pairwise distinct timestamps fit in the
buffer (at most `_screenLimit` many, so that the buffer can hold them all),
any arrival order produces exactly the timestamp-sorted sequence, which a
final `stop` then drains in exactly that order. -/
theorem C5_sorted_buffer_yields_timestamp_order (fs gs : List ProcessedFrame)
    (fps : ℚ) (res : Bool) (t : ℚ)
    (hperm : List.Perm fs gs)
    (hsort : List.Sorted (fun a b : ProcessedFrame => a.timestamp < b.timestamp) gs)
    (hlen : fs.length ≤ screenLimit) :
    (∀ hs : List ProcessedFrame,
      List.Sorted tsLE ((runInserts (initialState fps res) hs).screenCastFrames)) ∧
    (runInserts (initialState fps res) fs).screenCastFrames = gs ∧
    (stop (runInserts (initialState fps res) fs) t).1.flushed = trimFrame gs t := by
  have hinit : List.Sorted tsLE (initialState fps res).screenCastFrames :=
    List.sorted_nil
  have hpart1 : ∀ hs : List ProcessedFrame,
      List.Sorted tsLE ((runInserts (initialState fps res) hs).screenCastFrames) :=
    fun hs => runInserts_sorted hs _ hinit
  obtain ⟨hp, _, hfl, hst, _, _, _⟩ :=
    runInserts_no_drain fs (initialState fps res) hinit (by simpa [initialState] using hlen)
  have hp' : List.Perm (runInserts (initialState fps res) fs).screenCastFrames fs := by
    simpa [initialState] using hp
  have hpgs : List.Perm (runInserts (initialState fps res) fs).screenCastFrames gs :=
    hp'.trans hperm
  have hsorted := hpart1 fs
  have hgsnodup : (gs.map ProcessedFrame.timestamp).Nodup :=
    (List.Pairwise.map ProcessedFrame.timestamp (fun a b hab => hab) hsort).imp
      (fun hab => ne_of_lt hab)
  have hmapperm : List.Perm
      ((runInserts (initialState fps res) fs).screenCastFrames.map ProcessedFrame.timestamp)
      (gs.map ProcessedFrame.timestamp) := hpgs.map _
  have hfnodup : ((runInserts (initialState fps res) fs).screenCastFrames.map
      ProcessedFrame.timestamp).Nodup := hmapperm.symm.nodup hgsnodup
  have hfne : List.Pairwise (fun a b : ProcessedFrame => a.timestamp ≠ b.timestamp)
      (runInserts (initialState fps res) fs).screenCastFrames :=
    List.pairwise_map.1 hfnodup
  have hfstrict : List.Sorted (fun a b : ProcessedFrame => a.timestamp < b.timestamp)
      (runInserts (initialState fps res) fs).screenCastFrames :=
    (hsorted.and hfne).imp (fun hab => lt_of_le_of_ne hab.1 hab.2)
  haveI : IsAntisymm ProcessedFrame (fun a b => a.timestamp < b.timestamp) :=
    ⟨fun a b h1 h2 => absurd h2 (not_lt.2 (le_of_lt h1))⟩
  have heq : (runInserts (initialState fps res) fs).screenCastFrames = gs :=
    List.eq_of_perm_of_sorted hpgs hfstrict hsort
  refine ⟨hpart1, heq, ?_⟩
  have hstatus : (runInserts (initialState fps res) fs).status
      ≠ VideoWriteStatus.COMPLETED := by
    rw [hst]
    simp [initialState]
  rw [stop_flushed_of_ne _ t hstatus, hfl, heq]
  simp [initialState]

theorem C5_witness :
    List.Perm ([⟨0, 7⟩, ⟨1, 3⟩, ⟨2, 5⟩] : List ProcessedFrame)
      [⟨1, 3⟩, ⟨2, 5⟩, ⟨0, 7⟩] ∧
    (runInserts (initialState 25 true) [⟨0, 7⟩, ⟨1, 3⟩, ⟨2, 5⟩]).screenCastFrames
      = [⟨1, 3⟩, ⟨2, 5⟩, ⟨0, 7⟩] :=
  ⟨by decide,
    (C5_sorted_buffer_yields_timestamp_order [⟨0, 7⟩, ⟨1, 3⟩, ⟨2, 5⟩]
      [⟨1, 3⟩, ⟨2, 5⟩, ⟨0, 7⟩] 25 true 0 (by decide) (by decide) (by decide)).2.1⟩

set_option maxRecDepth 10000 in
/-- C1 (counterexample): the global non-decreasing order of the encoder feed
fails once a frame arrives later than frames a half-drain has already
flushed: with `ceFrames`, the flush trace carries timestamps
`100..119, 1, 120..139`, which is not non-decreasing. -/
theorem C1_counterexample :
    ¬ List.Sorted (· ≤ ·)
      ((stop (runInserts (initialState 25 true) ceFrames) 200).1.flushed.map
        TimedFrame.timestamp) := by
  decide

/-- C1 (amended): the encoder feed receives blobs in non-decreasing timestamp
order regardless of arrival order, provided no capacity drain happens before
`stop` — that is, for runs of at most `_screenLimit` inserted frames.  With
more frames, a sufficiently late arrival after a half-drain violates the
order (see the counterexample). -/
theorem C1_flushed_order_of_bounded_inserts (fs : List ProcessedFrame)
    (fps : ℚ) (res : Bool) (t : ℚ) (hlen : fs.length ≤ screenLimit) :
    List.Sorted (· ≤ ·)
      ((stop (runInserts (initialState fps res) fs) t).1.flushed.map
        TimedFrame.timestamp) := by
  have hinit : List.Sorted tsLE (initialState fps res).screenCastFrames :=
    List.sorted_nil
  obtain ⟨_, _, hfl, hst, _, _, _⟩ :=
    runInserts_no_drain fs (initialState fps res) hinit (by simpa [initialState] using hlen)
  have hstatus : (runInserts (initialState fps res) fs).status
      ≠ VideoWriteStatus.COMPLETED := by
    rw [hst]
    simp [initialState]
  rw [stop_flushed_of_ne _ t hstatus, hfl]
  have hsorted := runInserts_sorted fs (initialState fps res) hinit
  have hmap : ((trimFrame (runInserts (initialState fps res) fs).screenCastFrames t).map
      TimedFrame.timestamp).Sorted (· ≤ ·) := by
    rw [trimFrame_map_timestamp]
    exact List.Pairwise.map _ (fun a b hab => hab) hsorted
  simpa [initialState] using hmap

theorem C1_witness :
    ([⟨0, 2⟩, ⟨1, 1⟩] : List ProcessedFrame).length ≤ screenLimit ∧
    List.Sorted (· ≤ ·)
      ((stop (runInserts (initialState 25 true) [⟨0, 2⟩, ⟨1, 1⟩]) 3).1.flushed.map
        TimedFrame.timestamp) :=
  ⟨by decide, C1_flushed_order_of_bounded_inserts [⟨0, 2⟩, ⟨1, 1⟩] 25 true 3 (by decide)⟩

end PageVideoStreamWriter
